import Mathlib

/-!
Verification of the tiered retrieval and reranking engine of the
`mtg-vector-db` repository (files `src/db/db_utils.py` and
`src/db/search_strategies.py`).

The Python code is shallowly embedded: pure logic becomes Lean functions,
Python `float` division is modelled over `ℚ`, Python code that can raise is
modelled in `Except String`, and the external collaborators (PostgreSQL with
pg_trgm/pgvector, the Ollama embedding and reranker HTTP services) are
modelled as explicit inputs:

* the reranker HTTP response is an `Option String` (`none` = the request
  failed on every retry attempt; the retry loop of the source re-issues the
  same deterministic request, so one response value suffices);
* the embedding service result is an `Option (List ℚ)` (`none` = embedding
  generation failed after retries and the source returned `None`);
* the datastore tables are explicit lists of rows, and the pg_trgm
  `similarity` and pgvector distance functions are function parameters;
  SQL `NULL` is `Option.none`, and comparison operators are strict in
  `NULL` as in SQL (a `NULL` query vector yields `NULL` distances).
-/

/-! ### Reranker response parsing (`OllamaReranker._get_batch_ranking`) -/

/-- Maximal runs of decimal digits in a character stream, accumulator style:
the embedding of `re.findall(r'\d+', response_text)`. -/
def digitRunsAux : List Char → List Char → List (List Char)
  | [], acc => if acc = [] then [] else [acc.reverse]
  | c :: cs, acc =>
    if c.isDigit then digitRunsAux cs (c :: acc)
    else if acc = [] then digitRunsAux cs []
    else acc.reverse :: digitRunsAux cs []

/-- All maximal digit runs of a string. -/
def digitRuns (s : String) : List (List Char) := digitRunsAux s.data []

/-- Decimal value of a digit run: the embedding of Python `int(run)`. -/
def runToNat (run : List Char) : ℕ := run.foldl (fun a c => 10 * a + (c.toNat - 48)) 0

/-- The ordered list of numbers extracted from the reranker response text:
`[int(m) for m in re.findall(r'\d+', response_text)]`. -/
def extractNumbers (s : String) : List ℕ := (digitRuns s).map runToNat

/-- The integers `0, 1, …, n-1` in ascending order (`range(num_docs)`). -/
def intRange (n : ℕ) : List ℤ := (List.range n).map (fun m : ℕ => (m : ℤ))

/-- Zero-based candidate indices obtained from the extracted numbers:
`ranking = [int(n) - 1 for n in numbers]` followed by
`ranking = [idx for idx in ranking if 0 <= idx < num_docs]`. -/
def filteredIndices (numbers : List ℕ) (numDocs : ℕ) : List ℤ :=
  (numbers.map (fun n => (n : ℤ) - 1)).filter
    (fun i => decide (0 ≤ i ∧ i < (numDocs : ℤ)))

/-- Recovery of a full ranking from the extracted numbers: filter to valid
zero-based indices, append the missing indices in ascending order
(`sorted(set(range(num_docs)) - set(ranking))`), and truncate to
`num_docs` entries (`ranking[:num_docs]`). -/
def parseRanking (numbers : List ℕ) (numDocs : ℕ) : List ℤ :=
  let ranking := filteredIndices numbers numDocs
  let missing := (intRange numDocs).filter (fun i => decide (i ∉ ranking))
  (ranking ++ missing).take numDocs

/-- Outcome of `OllamaReranker._get_batch_ranking`. The argument is the
reranker service's response text (`none` when every retry attempt failed).
A response with no digit run at all falls through the parse on every
attempt, so the call returns `None` exactly as a network failure does. -/
def getBatchRanking (responseText : Option String) (numDocs : ℕ) :
    Option (List ℤ) :=
  match responseText with
  | none => none
  | some t =>
    let numbers := extractNumbers t
    if numbers = [] then none else some (parseRanking numbers numDocs)

/-! ### `OllamaReranker.rerank` -/

/-- One entry of the list returned by `OllamaReranker.rerank`: the Python
dict `{'index': …, 'text': …, 'score': …}`. -/
structure RankedDoc where
  index : ℤ
  text : String
  score : ℚ
deriving DecidableEq, Repr

/-- Python slicing `results[:top_k]` for `top_k : Optional[int]`:
`lst[:None]` is the whole list. -/
def takeOpt (topK : Option ℕ) (l : List α) : List α :=
  match topK with
  | none => l
  | some k => l.take k

/-- The body of `OllamaReranker.rerank`, together with a flag recording
whether the reranker client (`_get_batch_ranking`) was invoked. The prompt
built from `query` and `documents` only influences the external model, whose
response text is the `responseText` argument. -/
def rerankCore (query : String) (documents : List String) (topK : Option ℕ)
    (responseText : Option String) : List RankedDoc × Bool :=
  if documents = [] then ([], false)
  else
    match getBatchRanking responseText documents.length with
    | none =>
      -- fallback: original order with equal scores 0.5, sliced to top_k
      (takeOpt topK (documents.enum.map fun p =>
        { index := (p.1 : ℤ), text := p.2, score := 1/2 }), true)
    | some ranking =>
      -- score = 1.0 - rank_position / len(documents)
      (takeOpt topK (ranking.enum.map fun p =>
        { index := p.2
          text := documents.getD p.2.toNat ""
          score := 1 - (p.1 : ℚ) / (documents.length : ℚ) }), true)

/-- `OllamaReranker.rerank` itself (the list of ranked documents). -/
def rerank (query : String) (documents : List String) (topK : Option ℕ)
    (responseText : Option String) : List RankedDoc :=
  (rerankCore query documents topK responseText).1

/-! ### Card rows and search results (`search_strategies.py`) -/

/-- The card-data JSON fields consulted by the search strategies. -/
structure CardData where
  type : Option String := none
  manaCost : Option String := none
  power : Option String := none
  toughness : Option String := none
deriving DecidableEq, Repr

/-- A row of the `mtg_cards` table as selected by the strategies. -/
structure CardRow where
  card_name : String
  card_data : Option CardData := none
  text_content : Option String := none
deriving DecidableEq, Repr

/-- A result dict produced by the card search strategies. Exactly the keys
that appear in the source are modelled; the three presentation signals are
`Option`s because each strategy populates only one of them. -/
structure SResult where
  card_name : String
  card_data : Option CardData := none
  text_content : Option String := none
  similarity : Option ℚ := none
  distance : Option ℚ := none
  score : Option ℚ := none
  match_type : String
deriving DecidableEq, Repr

/-- SQL `LOWER(…)`: character-wise lowercasing. -/
def pyLower (s : String) : String := ⟨s.data.map Char.toLower⟩

/-- Character-list prefix test (first argument is the candidate prefix). -/
def strStarts : List Char → List Char → Bool
  | [], _ => true
  | _ :: _, [] => false
  | q :: qs, c :: cs => q == c && strStarts qs cs

/-- `name ILIKE query || '%'`: case-insensitive prefix match on the name. -/
def ilikeStarts (query name : String) : Bool :=
  strStarts (pyLower query).data (pyLower name).data

/-- Insertion into a list sorted by the given `le` test. -/
def insertOrd (le : α → α → Bool) (a : α) : List α → List α
  | [] => [a]
  | b :: bs => if le a b then a :: b :: bs else b :: insertOrd le a bs

/-- Insertion sort by the given `le` test (models SQL `ORDER BY`). -/
def sortOrd (le : α → α → Bool) : List α → List α
  | [] => []
  | a :: as => insertOrd le a (sortOrd le as)

/-- Sort descending by a rational key. -/
def sortDescBy (key : α → ℚ) (l : List α) : List α :=
  sortOrd (fun a b => decide (key b ≤ key a)) l

/-- Sort ascending by a rational key. -/
def sortAscBy (key : α → ℚ) (l : List α) : List α :=
  sortOrd (fun a b => decide (key a ≤ key b)) l

/-! ### `CardSearchStrategies.search_by_card_name` -/

/-- Tier 2 candidate rows: `WHERE card_name ILIKE query || '%' ORDER BY
similarity(card_name, query) DESC LIMIT top_k`.  `sim` is the external
pg_trgm `similarity` function. -/
def tier2Rows (table : List CardRow) (sim : String → String → ℚ)
    (query : String) (topK : ℕ) : List CardRow :=
  (sortDescBy (fun c => sim c.card_name query)
    (table.filter (fun c => ilikeStarts query c.card_name))).take topK

/-- Tier 3 candidate rows: `WHERE similarity(card_name, query) > threshold
ORDER BY card_name <-> query LIMIT top_k`; pg_trgm defines
`a <-> b = 1 - similarity(a, b)`, so the ordering is ascending in that
distance. -/
def tier3Rows (table : List CardRow) (sim : String → String → ℚ)
    (query : String) (topK : ℕ) (threshold : ℚ) : List CardRow :=
  (sortAscBy (fun c => 1 - sim c.card_name query)
    (table.filter (fun c => decide (sim c.card_name query > threshold)))).take topK

/-- The single result built from a Tier 1 exact match. -/
def mkExactResult (c : CardRow) : SResult :=
  { card_name := c.card_name, card_data := c.card_data,
    text_content := c.text_content, similarity := some 1, match_type := "exact" }

/-- A result built from a Tier 2 row (similarity recomputed by pg_trgm). -/
def mkTier2Result (sim : String → String → ℚ) (query : String) (c : CardRow) :
    SResult :=
  { card_name := c.card_name, card_data := c.card_data,
    text_content := c.text_content, similarity := some (sim c.card_name query),
    match_type := "prefix" }

/-- A result built from a Tier 3 row. -/
def mkTier3Result (sim : String → String → ℚ) (query : String) (c : CardRow) :
    SResult :=
  { card_name := c.card_name, card_data := c.card_data,
    text_content := c.text_content, similarity := some (sim c.card_name query),
    match_type := "fuzzy_trigram" }

/-- `CardSearchStrategies.search_by_card_name`: Tier 1 exact (first matching
row, `fetchone`), else Tier 2 prefix accepted when the top similarity
exceeds 0.5, else Tier 3 fuzzy trigram. -/
def searchByCardName (table : List CardRow) (sim : String → String → ℚ)
    (query : String) (topK : ℕ) (threshold : ℚ) : List SResult :=
  match table.find? (fun c => pyLower c.card_name == pyLower query) with
  | some c => [mkExactResult c]
  | none =>
    match tier2Rows table sim query topK with
    | c :: cs =>
      if sim c.card_name query > 1/2 then
        (c :: cs).map (mkTier2Result sim query)
      else
        (tier3Rows table sim query topK threshold).map (mkTier3Result sim query)
    | [] =>
      (tier3Rows table sim query topK threshold).map (mkTier3Result sim query)

/-! ### Vector search plus reranking -/

/-- Python `float(x)` applied to a value that may be SQL `NULL`:
`float(None)` raises `TypeError`. -/
def pyFloat : Option ℚ → Except String ℚ
  | none => .error "TypeError: float() argument must be a string or a real number, not 'NoneType'"
  | some q => .ok q

/-- A Python list comprehension whose body may raise: evaluation is
sequential and the first raised exception propagates. -/
def pyListMap (f : α → Except String β) : List α → Except String (List β)
  | [] => .ok []
  | a :: as =>
    match f a with
    | .error e => .error e
    | .ok b =>
      match pyListMap f as with
      | .error e => .error e
      | .ok bs => .ok (b :: bs)

/-- The document rendered for one card before reranking (source lines
179–198 of `search_strategies.py`). -/
def buildCardDoc (c : CardRow) : String :=
  let textContent := c.text_content.getD ""
  let d1 := "Card: " ++ c.card_name ++ "\n"
  let d2 := if textContent = "" then d1 else d1 ++ "Text: " ++ textContent ++ "\n"
  let d3 :=
    match c.card_data with
    | none => d2
    | some cd =>
      let a := match cd.type with
        | some t => d2 ++ "Type: " ++ t ++ "\n"
        | none => d2
      let b := match cd.manaCost with
        | some m => a ++ "Mana Cost: " ++ m ++ "\n"
        | none => a
      match cd.power, cd.toughness with
      | some p, some t => b ++ "P/T: " ++ p ++ "/" ++ t ++ "\n"
      | _, _ => b
  d3.trim

/-- Fallback row pair used to model Python list indexing (indexing is only
performed at indices proven to be in range, so the fallback never shows). -/
def emptyCardRow : CardRow := { card_name := "" }

/-- `CardSearchStrategies.search_by_card_description` from the point where
the vector SELECT has produced its rows. Each row carries its `distance`
column, which is `none` when the SQL comparison evaluated to `NULL`.
`hasReranker` is `self.reranker is not None`; `responseText` is the reranker
service response. -/
def searchByCardDescription (rows : List (CardRow × Option ℚ))
    (hasReranker : Bool) (responseText : Option String)
    (query : String) (finalK : ℕ) : Except String (List SResult) :=
  if rows = [] then .ok []
  else if !hasReranker then
    pyListMap (fun rw => (pyFloat rw.2).map fun d =>
      { card_name := rw.1.card_name, card_data := rw.1.card_data,
        text_content := rw.1.text_content, distance := some d,
        match_type := "vector_only" }) rows
  else
    let documents := rows.map (fun rw => buildCardDoc rw.1)
    let reranked := rerank query documents (some finalK) responseText
    .ok (reranked.map fun item =>
      let orig := (rows.getD item.index.toNat (emptyCardRow, none)).1
      { card_name := orig.card_name, card_data := orig.card_data,
        text_content := orig.text_content, score := some item.score,
        match_type := "vector_reranked" })

/-- The vector SELECT `… (e.embedding <=> %s::vector) as distance …
ORDER BY e.embedding <=> %s::vector LIMIT k` over a table of rows paired
with their stored embeddings. With a `NULL` query vector (the embedder
returned `None`) the strict `<=>` operator yields `NULL` for every row and
the `ORDER BY` does not discriminate, so the stored order is kept. -/
def vectorSelect (table : List (α × List ℚ)) (dist : List ℚ → List ℚ → ℚ)
    (queryEmbedding : Option (List ℚ)) (k : ℕ) : List (α × Option ℚ) :=
  match queryEmbedding with
  | none => (table.map fun rw => (rw.1, (none : Option ℚ))).take k
  | some v =>
    ((sortAscBy (fun rw => dist rw.2 v) table).map fun rw =>
      (rw.1, some (dist rw.2 v))).take k

/-- `search_by_card_description` end to end: embed the query (the embedder
outcome is the `queryEmbedding` argument), run the vector SELECT, then
rerank or fall back. -/
def searchByCardDescriptionFull (table : List (CardRow × List ℚ))
    (dist : List ℚ → List ℚ → ℚ) (queryEmbedding : Option (List ℚ))
    (initialK : ℕ) (hasReranker : Bool) (responseText : Option String)
    (query : String) (finalK : ℕ) : Except String (List SResult) :=
  searchByCardDescription (vectorSelect table dist queryEmbedding initialK)
    hasReranker responseText query finalK

/-- `CardSearchStrategies.search_ambiguous`: pure vector search, each result
tagged `vector_ambiguous` with `float(distance)`. -/
def searchAmbiguous (rows : List (CardRow × Option ℚ)) :
    Except String (List SResult) :=
  pyListMap (fun rw => (pyFloat rw.2).map fun d =>
    { card_name := rw.1.card_name, card_data := rw.1.card_data,
      text_content := rw.1.text_content, distance := some d,
      match_type := "vector_ambiguous" }) rows

/-! ### `RulesSearchStrategies.search_rules_text` -/

/-- A row of the `mtg_rules` table as selected by the rules strategy. -/
structure RuleRow where
  rule_number : Option String := none
  rule_text : Option String := none
  section_title : Option String := none
  rule_data : Option String := none
deriving DecidableEq, Repr

/-- A result dict produced by the rules search strategy. -/
structure RResult where
  rule_number : Option String := none
  rule_text : Option String := none
  section_title : Option String := none
  rule_data : Option String := none
  distance : Option ℚ := none
  score : Option ℚ := none
  match_type : String
deriving DecidableEq, Repr

/-- The document rendered for one rule before reranking (source lines
320–331 of `search_strategies.py`). -/
def buildRuleDoc (r : RuleRow) : String :=
  let num := r.rule_number.getD ""
  let txt := r.rule_text.getD ""
  let sec := r.section_title.getD ""
  let d1 := "Rule " ++ num
  let d2 := if sec = "" then d1 else d1 ++ " (" ++ sec ++ ")"
  (d2 ++ ": " ++ txt).trim

/-- Fallback rule row for the in-range-indexing model. -/
def emptyRuleRow : RuleRow := {}

/-- `RulesSearchStrategies.search_rules_text` from the point where the
vector SELECT has produced its rows. -/
def searchRulesText (rows : List (RuleRow × Option ℚ))
    (hasReranker : Bool) (responseText : Option String)
    (query : String) (finalK : ℕ) : Except String (List RResult) :=
  if rows = [] then .ok []
  else if !hasReranker then
    pyListMap (fun rw => (pyFloat rw.2).map fun d =>
      { rule_number := rw.1.rule_number, rule_text := rw.1.rule_text,
        section_title := rw.1.section_title, rule_data := rw.1.rule_data,
        distance := some d, match_type := "vector_only" }) rows
  else
    let documents := rows.map (fun rw => buildRuleDoc rw.1)
    let reranked := rerank query documents (some finalK) responseText
    .ok (reranked.map fun item =>
      let orig := (rows.getD item.index.toNat (emptyRuleRow, none)).1
      { rule_number := orig.rule_number, rule_text := orig.rule_text,
        section_title := orig.section_title, rule_data := orig.rule_data,
        score := some item.score, match_type := "vector_reranked" })

/-- `search_rules_text` end to end. -/
def searchRulesTextFull (table : List (RuleRow × List ℚ))
    (dist : List ℚ → List ℚ → ℚ) (queryEmbedding : Option (List ℚ))
    (initialK : ℕ) (hasReranker : Bool) (responseText : Option String)
    (query : String) (finalK : ℕ) : Except String (List RResult) :=
  searchRulesText (vectorSelect table dist queryEmbedding initialK)
    hasReranker responseText query finalK

/-! ### Presentation-signal invariant -/

/-- The number of populated presentation signals of a card result. -/
def SResult.signalCount (r : SResult) : ℕ :=
  (if r.similarity.isSome then 1 else 0) + (if r.distance.isSome then 1 else 0)
    + (if r.score.isSome then 1 else 0)

/-- The populated signal is the one the `match_type` tag announces, and the
tag is one of the six tags emitted by the card strategies. -/
def SResult.tagConsistent (r : SResult) : Prop :=
  (r.match_type = "exact" ∨ r.match_type = "prefix" ∨
      r.match_type = "fuzzy_trigram" ∨ r.match_type = "vector_only" ∨
      r.match_type = "vector_ambiguous" ∨ r.match_type = "vector_reranked") ∧
  ((r.match_type = "exact" ∨ r.match_type = "prefix" ∨
      r.match_type = "fuzzy_trigram") → r.similarity.isSome = true) ∧
  ((r.match_type = "vector_only" ∨ r.match_type = "vector_ambiguous") →
      r.distance.isSome = true) ∧
  (r.match_type = "vector_reranked" → r.score.isSome = true)

/-! ### Lemmas about the recovered ranking -/

theorem mem_intRange {n : ℕ} {i : ℤ} : i ∈ intRange n ↔ 0 ≤ i ∧ i < (n : ℤ) := by
  simp only [intRange, List.mem_map, List.mem_range]
  constructor
  · rintro ⟨m, hm, rfl⟩
    exact ⟨by omega, by omega⟩
  · rintro ⟨h0, hn⟩
    exact ⟨i.toNat, by omega, by omega⟩

theorem nodup_intRange (n : ℕ) : (intRange n).Nodup := by
  have hinj : Function.Injective (fun m : ℕ => (m : ℤ)) := fun a b h => by
    simpa using h
  exact List.Nodup.map hinj (List.nodup_range n)

theorem length_intRange (n : ℕ) : (intRange n).length = n := by
  simp [intRange]

theorem filteredIndices_mem {numbers : List ℕ} {N : ℕ} {i : ℤ}
    (h : i ∈ filteredIndices numbers N) : 0 ≤ i ∧ i < (N : ℤ) := by
  simp only [filteredIndices, List.mem_filter, decide_eq_true_eq] at h
  exact h.2

theorem parseRanking_extended_length (numbers : List ℕ) (N : ℕ) :
    N ≤ (filteredIndices numbers N ++
      (intRange N).filter (fun i => decide (i ∉ filteredIndices numbers N))).length := by
  set F := filteredIndices numbers N with hF
  have hsplit :
      List.Perm ((intRange N).filter (fun i => decide (i ∈ F)) ++
        (intRange N).filter (fun i => !decide (i ∈ F))) (intRange N) :=
    List.filter_append_perm _ _
  have hnotdec : ∀ i : ℤ, decide (i ∉ F) = !decide (i ∈ F) := by
    intro i; by_cases h : i ∈ F <;> simp [h]
  have hfilter_eq : (intRange N).filter (fun i => decide (i ∉ F)) =
      (intRange N).filter (fun i => !decide (i ∈ F)) := by
    congr 1; funext i; exact hnotdec i
  have hsubp : ((intRange N).filter (fun i => decide (i ∈ F))).Subperm F := by
    refine List.subperm_of_subset ((nodup_intRange N).filter _) ?_
    intro a ha
    have := (List.mem_filter.mp ha).2
    simpa using this
  have hlen := hsubp.length_le
  have htot := hsplit.length_eq
  rw [List.length_append] at htot ⊢
  rw [length_intRange] at htot
  rw [hfilter_eq]
  omega

theorem parseRanking_length (numbers : List ℕ) (N : ℕ) :
    (parseRanking numbers N).length = N := by
  have h := parseRanking_extended_length numbers N
  simp only [parseRanking, List.length_take]
  omega

theorem parseRanking_mem {numbers : List ℕ} {N : ℕ} {i : ℤ}
    (h : i ∈ parseRanking numbers N) : 0 ≤ i ∧ i < (N : ℤ) := by
  simp only [parseRanking] at h
  have h' := List.take_subset _ _ h
  rcases List.mem_append.mp h' with h1 | h2
  · exact filteredIndices_mem h1
  · exact mem_intRange.mp (List.mem_filter.mp h2).1

theorem parseRanking_perm_of_nodup {numbers : List ℕ} {N : ℕ}
    (hnodup : (filteredIndices numbers N).Nodup) :
    List.Perm (parseRanking numbers N) (intRange N) := by
  set F := filteredIndices numbers N with hF
  set M := (intRange N).filter (fun i => decide (i ∉ F)) with hM
  have hMnodup : M.Nodup := (nodup_intRange N).filter _
  have hdisj : F.Disjoint M := by
    intro a haF haM
    have := (List.mem_filter.mp haM).2
    simp only [decide_eq_true_eq] at this
    exact this haF
  have hEnodup : (F ++ M).Nodup := hnodup.append hMnodup hdisj
  have hEsub : F ++ M ⊆ intRange N := by
    intro a ha
    rcases List.mem_append.mp ha with h1 | h2
    · exact mem_intRange.mpr (filteredIndices_mem h1)
    · exact (List.mem_filter.mp h2).1
  have hsub2 : intRange N ⊆ F ++ M := by
    intro a ha
    by_cases haF : a ∈ F
    · exact List.mem_append.mpr (Or.inl haF)
    · exact List.mem_append.mpr (Or.inr (List.mem_filter.mpr ⟨ha, by simpa using haF⟩))
  have hperm : List.Perm (F ++ M) (intRange N) :=
    (List.subperm_of_subset hEnodup hEsub).antisymm
      (List.subperm_of_subset (nodup_intRange N) hsub2)
  have hlen : (F ++ M).length = N := by
    rw [hperm.length_eq, length_intRange]
  have : parseRanking numbers N = F ++ M := by
    simp only [parseRanking, ← hF, ← hM]
    exact List.take_of_length_le (le_of_eq hlen)
  rw [this]
  exact hperm

/-! ### Lemmas about `takeOpt` and `rerank` -/

theorem takeOpt_length (k : Option ℕ) (l : List α) :
    (takeOpt k l).length = min (k.getD l.length) l.length := by
  cases k with
  | none => simp [takeOpt]
  | some n => simp [takeOpt, List.length_take]

theorem takeOpt_length_le (k : Option ℕ) (l : List α) :
    (takeOpt k l).length ≤ l.length := by
  rw [takeOpt_length]; omega

theorem takeOpt_getElem (k : Option ℕ) (l : List α) (r : ℕ)
    (h : r < (takeOpt k l).length) :
    (takeOpt k l)[r] = l.get ⟨r, lt_of_lt_of_le h (takeOpt_length_le k l)⟩ := by
  cases k with
  | none => rfl
  | some n => exact List.getElem_take l


/-! ### Claim C1 -/

/-- C1 (counterexample to the claim as stated): the reranker response
`"1 1"` for 2 documents parses to the ranking `[0, 0]` — exactly 2 entries,
but index `1` receives no rank, so not every index in `[0, 2)` appears
exactly once. -/
theorem reranker_parse_duplicate_counterexample :
    getBatchRanking (some "1 1") 2 = some [(0 : ℤ), 0] ∧
    List.count (1 : ℤ) [(0 : ℤ), 0] = 0 :=
  ⟨by decide, by decide⟩

/-- C1 (amended): for every document count `N ≥ 1` and every reranker
response text containing at least one run of digits, provided the in-range
zero-based indices obtained from the digit runs are pairwise distinct, the
parsing algorithm (extract digit runs in order, subtract 1, discard indices
outside `[0, N)`, append the missing indices in ascending order, truncate to
`N` entries) yields a sequence of exactly `N` indices in which every index
in `[0, N)` appears exactly once. (With repeated in-range numbers the
output still has exactly `N` in-range entries, but an index can repeat and
another receive no rank.) -/
theorem reranker_parse_covers_all_indices (s : String) (N : ℕ) (hN : 1 ≤ N)
    (hdigits : extractNumbers s ≠ [])
    (hnodup : (filteredIndices (extractNumbers s) N).Nodup) :
    getBatchRanking (some s) N = some (parseRanking (extractNumbers s) N) ∧
    (parseRanking (extractNumbers s) N).length = N ∧
    ∀ i : ℤ, 0 ≤ i → i < (N : ℤ) →
      (parseRanking (extractNumbers s) N).count i = 1 := by
  refine ⟨by simp [getBatchRanking, hdigits], parseRanking_length _ _, ?_⟩
  intro i h0 hN'
  have hperm := parseRanking_perm_of_nodup hnodup
  rw [hperm.count_eq]
  exact List.count_eq_one_of_mem (nodup_intRange N) (mem_intRange.mpr ⟨h0, hN'⟩)

/-- Witness for C1 at the concrete response "3, 1, 5" with 5 documents. -/
theorem reranker_parse_covers_all_indices_witness :
    getBatchRanking (some "3, 1, 5") 5 =
      some (parseRanking (extractNumbers "3, 1, 5") 5) ∧
    (parseRanking (extractNumbers "3, 1, 5") 5).length = 5 ∧
    (parseRanking (extractNumbers "3, 1, 5") 5).count 3 = 1 := by
  obtain ⟨h1, h2, h3⟩ :=
    reranker_parse_covers_all_indices "3, 1, 5" 5 (by decide) (by decide)
      (by decide)
  exact ⟨h1, h2, h3 3 (by decide) (by decide)⟩

/-! ### Claim C2 -/

/-- C2: in a successful listwise rerank over `N` documents, the candidate at
rank position `r` (0-based) receives score exactly `1 - r/N`; and the
response `"3, 1, 5"` for 5 candidates yields the permutation
`[2, 0, 4, 1, 3]` with scores `[1, 4/5, 3/5, 2/5, 1/5]`. -/
theorem rerank_scores_linear :
    (∀ (q : String) (docs : List String) (topK : Option ℕ) (s : String),
      docs ≠ [] → extractNumbers s ≠ [] →
      ∀ (r : ℕ) (h : r < (rerank q docs topK (some s)).length),
        (rerank q docs topK (some s))[r].score =
          1 - (r : ℚ) / (docs.length : ℚ)) ∧
    rerank "burn spell" ["d1", "d2", "d3", "d4", "d5"] none (some "3, 1, 5") =
      [⟨2, "d3", 1⟩, ⟨0, "d1", 4/5⟩, ⟨4, "d5", 3/5⟩, ⟨1, "d2", 2/5⟩,
        ⟨3, "d4", 1/5⟩] := by
  constructor
  · intro q docs topK s hd hs r h
    have heq : rerank q docs topK (some s) =
        takeOpt topK ((parseRanking (extractNumbers s) docs.length).enum.map
          (fun p => { index := p.2, text := docs.getD p.2.toNat ""
                      score := 1 - (p.1 : ℚ) / (docs.length : ℚ) })) := by
      simp [rerank, rerankCore, getBatchRanking, hd, hs]
    simp only [heq] at h ⊢
    rw [takeOpt_getElem _ _ _ h]
    simp [List.getElem_map, List.getElem_enum]
  · have hrk : getBatchRanking (some "3, 1, 5") 5 = some [(2:ℤ), 0, 4, 1, 3] := by
      decide
    simp [rerank, rerankCore, hrk, takeOpt, List.enum, List.enumFrom]
    norm_num

/-- Witness for the universally quantified part of C2. -/
theorem rerank_scores_linear_witness :
    ((rerank "q" ["a", "b"] none (some "2 1")).get ⟨0, by decide⟩).score =
      1 - ((0 : ℕ) : ℚ) / (((["a", "b"] : List String).length : ℕ) : ℚ) :=
  rerank_scores_linear.1 "q" ["a", "b"] none "2 1" (by decide) (by decide) 0
    (by decide)

/-! ### Claim C3 -/

/-- C3: when the listwise ranking call fails after all retries or the
response contains no parseable digits, `rerank` does not raise: it returns
the candidates in their original order (index `i` at position `i`), each
with neutral score exactly `1/2`, truncated to the requested output size
(`N` results when `top_k` is `None` or `top_k ≥ N`), in the same result
schema as a successful rerank. -/
theorem rerank_fallback_original_order (q : String) (docs : List String)
    (topK : Option ℕ) (resp : Option String) (hd : docs ≠ [])
    (hfail : resp = none ∨ ∃ s, resp = some s ∧ extractNumbers s = []) :
    (rerank q docs topK resp).length =
      min (topK.getD docs.length) docs.length ∧
    ∀ (r : ℕ) (h : r < (rerank q docs topK resp).length),
      (rerank q docs topK resp)[r].index = (r : ℤ) ∧
      (rerank q docs topK resp)[r].score = 1/2 ∧
      (rerank q docs topK resp)[r].text = docs.getD r "" := by
  have hnone : getBatchRanking resp docs.length = none := by
    rcases hfail with rfl | ⟨s, rfl, hs⟩
    · rfl
    · simp [getBatchRanking, hs]
  have heq : rerank q docs topK resp =
      takeOpt topK (docs.enum.map fun p =>
        { index := (p.1 : ℤ), text := p.2, score := (1/2 : ℚ) }) := by
    simp [rerank, rerankCore, hd, hnone]
  constructor
  · rw [heq, takeOpt_length]
    simp
  · intro r h
    simp only [heq] at h ⊢
    rw [takeOpt_getElem _ _ _ h]
    have hr : r < docs.length := by
      have := lt_of_lt_of_le h (takeOpt_length_le _ _)
      simpa using this
    simp [List.getElem_map, List.getElem_enum, List.getElem?_eq_getElem hr]

/-- Witness for C3 at a concrete unparseable response. -/
theorem rerank_fallback_original_order_witness :
    (rerank "q" ["a", "b", "c"] (some 2) (some "no digits here")).length =
      min ((some 2).getD (["a", "b", "c"] : List String).length)
        (["a", "b", "c"] : List String).length ∧
    ((rerank "q" ["a", "b", "c"] (some 2) (some "no digits here")).get
        ⟨0, by decide⟩).score = 1/2 := by
  have h := rerank_fallback_original_order "q" ["a", "b", "c"] (some 2)
    (some "no digits here") (by decide) (Or.inr ⟨_, rfl, by decide⟩)
  exact ⟨h.1, (h.2 0 (by decide)).2.1⟩

/-! ### Claim C7 -/

/-- C7: an empty document list passed to `rerank` returns an empty result
list and the reranker client is never invoked (the invocation flag of
`rerankCore` is `false`), for every query, `top_k` and response. -/
theorem rerank_empty_no_client_call (q : String) (topK : Option ℕ)
    (resp : Option String) : rerankCore q [] topK resp = ([], false) := rfl

/-! ### Claim C10 -/

/-- C10: for every query, non-empty document list of length `N`, `top_k` and
reranker outcome, `rerank` returns exactly `min(N, top_k)` items (`N` when
`top_k` is `None`), every returned item's index lies in `[0, N)`, and its
text is the document its index designates. -/
theorem rerank_result_shape (q : String) (docs : List String)
    (topK : Option ℕ) (resp : Option String) (hd : docs ≠ []) :
    (rerank q docs topK resp).length =
      min (topK.getD docs.length) docs.length ∧
    ∀ (r : ℕ) (h : r < (rerank q docs topK resp).length),
      0 ≤ (rerank q docs topK resp)[r].index ∧
      (rerank q docs topK resp)[r].index < (docs.length : ℤ) ∧
      (rerank q docs topK resp)[r].text =
        docs.getD (rerank q docs topK resp)[r].index.toNat "" := by
  cases hrk : getBatchRanking resp docs.length with
  | none =>
    have heq : rerank q docs topK resp =
        takeOpt topK (docs.enum.map fun p =>
          { index := (p.1 : ℤ), text := p.2, score := (1/2 : ℚ) }) := by
      simp [rerank, rerankCore, hd, hrk]
    constructor
    · rw [heq, takeOpt_length]; simp
    · intro r h
      simp only [heq] at h ⊢
      rw [takeOpt_getElem _ _ _ h]
      have hr : r < docs.length := by
        have := lt_of_lt_of_le h (takeOpt_length_le _ _)
        simpa using this
      refine ⟨by simp, by simpa using hr, ?_⟩
      simp [List.getElem_map, List.getElem_enum, List.getElem?_eq_getElem hr]
  | some rk =>
    have hrk_eq : ∃ s, resp = some s ∧ extractNumbers s ≠ [] ∧
        rk = parseRanking (extractNumbers s) docs.length := by
      rcases resp with _ | s
      · exact absurd hrk (by simp [getBatchRanking])
      · by_cases hs : extractNumbers s = []
        · exact absurd hrk (by simp [getBatchRanking, hs])
        · refine ⟨s, rfl, hs, ?_⟩
          have := hrk
          simp [getBatchRanking, hs] at this
          exact this.symm
    obtain ⟨s, rfl, hs, hpr⟩ := hrk_eq
    have hlen : rk.length = docs.length := by
      rw [hpr, parseRanking_length]
    have hmem : ∀ i ∈ rk, 0 ≤ i ∧ i < (docs.length : ℤ) := by
      intro i hi
      rw [hpr] at hi
      exact parseRanking_mem hi
    have heq : rerank q docs topK (some s) =
        takeOpt topK (rk.enum.map fun p =>
          { index := p.2, text := docs.getD p.2.toNat ""
            score := 1 - (p.1 : ℚ) / (docs.length : ℚ) }) := by
      simp [rerank, rerankCore, hd, hrk]
    constructor
    · rw [heq, takeOpt_length]
      simp [hlen]
    · intro r h
      simp only [heq] at h ⊢
      rw [takeOpt_getElem _ _ _ h]
      have hr : r < rk.length := by
        have := lt_of_lt_of_le h (takeOpt_length_le _ _)
        simpa using this
      have hbound := hmem rk[r] (List.getElem_mem hr)
      simp [List.getElem_map, List.getElem_enum]
      exact ⟨hbound.1, hbound.2⟩

/-- Witness for C10 at a concrete input (an out-of-order duplicate-bearing
response). -/
theorem rerank_result_shape_witness :
    (rerank "q" ["x", "y"] none (some "2 2")).length =
      min (Option.getD none (["x", "y"] : List String).length)
        (["x", "y"] : List String).length ∧
    0 ≤ ((rerank "q" ["x", "y"] none (some "2 2")).get ⟨0, by decide⟩).index := by
  have h := rerank_result_shape "q" ["x", "y"] none (some "2 2") (by decide)
  exact ⟨h.1, (h.2 0 (by decide)).1⟩

/-! ### Lemmas about `pyListMap` and `vectorSelect` -/

theorem pyListMap_ok_of_forall {α β : Type} (f : α → Except String β)
    (g : α → β) (l : List α) (h : ∀ a ∈ l, f a = .ok (g a)) :
    pyListMap f l = .ok (l.map g) := by
  induction l with
  | nil => rfl
  | cons a as ih =>
    have ha := h a (by simp)
    have has := ih (fun x hx => h x (by simp [hx]))
    simp [pyListMap, ha, has]

theorem pyListMap_mem_ok {α β : Type} (f : α → Except String β) (l : List α)
    (res : List β) (h : pyListMap f l = .ok res) :
    ∀ b ∈ res, ∃ a ∈ l, f a = .ok b := by
  induction l generalizing res with
  | nil =>
    simp only [pyListMap, Except.ok.injEq] at h
    subst h
    simp
  | cons a as ih =>
    simp only [pyListMap] at h
    cases hfa : f a with
    | error e => rw [hfa] at h; exact absurd h (by simp)
    | ok b0 =>
      rw [hfa] at h
      cases hrest : pyListMap f as with
      | error e => rw [hrest] at h; exact absurd h (by simp)
      | ok bs =>
        rw [hrest] at h
        simp only [Except.ok.injEq] at h
        subst h
        intro b hb
        rcases List.mem_cons.mp hb with rfl | hb2
        · exact ⟨a, by simp, hfa⟩
        · obtain ⟨x, hx, hfx⟩ := ih bs hrest b hb2
          exact ⟨x, by simp [hx], hfx⟩

theorem vectorSelect_some_mem {α : Type} (table : List (α × List ℚ))
    (dist : List ℚ → List ℚ → ℚ) (v : List ℚ) (k : ℕ) {p : α × Option ℚ}
    (hp : p ∈ vectorSelect table dist (some v) k) : ∃ d, p.2 = some d := by
  simp only [vectorSelect] at hp
  have hmem := List.take_subset _ _ hp
  simp only [List.mem_map] at hmem
  obtain ⟨rw, _, rfl⟩ := hmem
  exact ⟨_, rfl⟩

/-! ### Claim C4 -/

/-- C4 (code evaluation at the failing input): when embedding generation
fails after its retries (the embedder returns `None`) and the card table is
non-empty, `search_by_card_description` with no reranker does not return an
empty result set — the vector SELECT runs with a `NULL` query vector, every
returned row carries a `NULL` distance, and building the `vector_only`
results applies `float(...)` to `None`, raising a `TypeError` instead. -/
theorem searchDesc_embed_failure_raises :
    searchByCardDescriptionFull [({ card_name := "Lightning Bolt" }, [1])]
      (fun _ _ => 0) none 30 false none "cheap red burn spell" 10 =
      .error "TypeError: float() argument must be a string or a real number, not 'NoneType'" :=
  rfl

/-! ### Claim C5 -/

/-- C5: if the name table contains an entry equal to the query
case-insensitively, `search_by_card_name` returns immediately with exactly
one result carrying `similarity = 1` and `match_type = "exact"`, for every
`top_k` and threshold. -/
theorem name_search_exact_match (table : List CardRow)
    (sim : String → String → ℚ) (query : String) (topK : ℕ) (threshold : ℚ)
    (h : ∃ c ∈ table, pyLower c.card_name = pyLower query) :
    (searchByCardName table sim query topK threshold).length = 1 ∧
    ∀ r ∈ searchByCardName table sim query topK threshold,
      r.similarity = some 1 ∧ r.match_type = "exact" := by
  obtain ⟨c, hc, hceq⟩ := h
  cases hfind : table.find? (fun c => pyLower c.card_name == pyLower query) with
  | none =>
    have := List.find?_eq_none.mp hfind c hc
    simp [hceq] at this
  | some c0 =>
    constructor
    · simp [searchByCardName, hfind]
    · intro r hr
      simp only [searchByCardName, hfind] at hr
      simp only [List.mem_singleton] at hr
      subst hr
      exact ⟨rfl, rfl⟩

/-- Witness for C5: query "lightning bolt" against a table containing
"Lightning Bolt". -/
theorem name_search_exact_match_witness :
    (searchByCardName [{ card_name := "Lightning Bolt" }] (fun _ _ => 0)
      "lightning bolt" 10 0).length = 1 ∧
    ((searchByCardName [{ card_name := "Lightning Bolt" }] (fun _ _ => 0)
        "lightning bolt" 10 0).get ⟨0, by decide⟩).similarity = some 1 := by
  have h := name_search_exact_match [{ card_name := "Lightning Bolt" }]
    (fun _ _ => 0) "lightning bolt" 10 0 (by decide)
  exact ⟨h.1, (h.2 _ (List.get_mem _ _ _)).1⟩

/-! ### Claim C6 -/

/-- C6: with no Tier-1 exact match, `search_by_card_name` attempts Tier 2
(prefix) before Tier 3 (fuzzy): Tier-2 results are returned exactly when the
top prefix result's similarity exceeds 0.5, otherwise the search falls
through to Tier 3; and no tier errors on zero matches — when nothing
matches any tier the result is the empty list. -/
theorem name_search_tier_fallthrough (table : List CardRow)
    (sim : String → String → ℚ) (query : String) (topK : ℕ) (threshold : ℚ)
    (hno : ∀ c ∈ table, pyLower c.card_name ≠ pyLower query) :
    (∀ c cs, tier2Rows table sim query topK = c :: cs →
      sim c.card_name query > 1/2 →
      searchByCardName table sim query topK threshold =
        (c :: cs).map (mkTier2Result sim query)) ∧
    (∀ c cs, tier2Rows table sim query topK = c :: cs →
      ¬ sim c.card_name query > 1/2 →
      searchByCardName table sim query topK threshold =
        (tier3Rows table sim query topK threshold).map
          (mkTier3Result sim query)) ∧
    (tier2Rows table sim query topK = [] →
      searchByCardName table sim query topK threshold =
        (tier3Rows table sim query topK threshold).map
          (mkTier3Result sim query)) ∧
    ((∀ c ∈ table, ilikeStarts query c.card_name = false) →
     (∀ c ∈ table, ¬ sim c.card_name query > threshold) →
      searchByCardName table sim query topK threshold = []) := by
  have hfind :
      table.find? (fun c => pyLower c.card_name == pyLower query) = none :=
    List.find?_eq_none.mpr (fun c hc => by simpa using hno c hc)
  refine ⟨?_, ?_, ?_, ?_⟩
  · intro c cs h2 hgt
    simp only [searchByCardName, hfind, h2]
    rw [if_pos hgt]
  · intro c cs h2 hle
    simp only [searchByCardName, hfind, h2]
    rw [if_neg hle]
  · intro h2
    simp only [searchByCardName, hfind, h2]
  · intro hilike hsim
    have h2 : tier2Rows table sim query topK = [] := by
      have hf : table.filter (fun c => ilikeStarts query c.card_name) = [] :=
        List.filter_eq_nil_iff.mpr (fun c hc => by simp [hilike c hc])
      simp [tier2Rows, hf, sortDescBy, sortOrd]
    have h3 : tier3Rows table sim query topK threshold = [] := by
      have hf :
          table.filter (fun c => decide (sim c.card_name query > threshold)) = [] :=
        List.filter_eq_nil_iff.mpr (fun c hc => by simpa using hsim c hc)
      simp [tier3Rows, hf, sortAscBy, sortOrd]
    simp [searchByCardName, hfind, h2, h3]

/-- Witness for C6: a prefix hit accepted (similarity 1 > 0.5), a prefix hit
rejected (similarity 0 ≤ 0.5, falling through to Tier 3), and an empty
result when no tier matches. -/
theorem name_search_tier_fallthrough_witness :
    searchByCardName [{ card_name := "Lightning Bolt" }] (fun _ _ => 1)
      "light" 10 0 =
      [({ card_name := "Lightning Bolt" } : CardRow)].map
        (mkTier2Result (fun _ _ => 1) "light") ∧
    searchByCardName [{ card_name := "Lightning Bolt" }] (fun _ _ => 0)
      "light" 10 0 =
      (tier3Rows [{ card_name := "Lightning Bolt" }] (fun _ _ => 0) "light"
        10 0).map (mkTier3Result (fun _ _ => 0) "light") ∧
    searchByCardName [{ card_name := "Giant Growth" }] (fun _ _ => 0)
      "light" 10 0 = [] := by
  refine ⟨?_, ?_, ?_⟩
  · exact (name_search_tier_fallthrough [{ card_name := "Lightning Bolt" }]
      (fun _ _ => 1) "light" 10 0 (by decide)).1
      { card_name := "Lightning Bolt" } [] (by decide) one_half_lt_one
  · exact (name_search_tier_fallthrough [{ card_name := "Lightning Bolt" }]
      (fun _ _ => 0) "light" 10 0 (by decide)).2.1
      { card_name := "Lightning Bolt" } [] (by decide)
      (not_lt.mpr one_half_pos.le)
  · exact (name_search_tier_fallthrough [{ card_name := "Giant Growth" }]
      (fun _ _ => 0) "light" 10 0 (by decide)).2.2.2 (by decide)
      (fun c hc => lt_irrefl 0)

/-! ### Claim C8 -/

/-- The `vector_only` result built from one card row and its distance
column, as in the `if not self.reranker` branch of
`search_by_card_description` (assuming a non-`NULL` distance, so that
`float(card[3])` is the identity on the stored rational). -/
def mkVectorOnlyCard (p : CardRow × Option ℚ) : SResult :=
  { card_name := p.1.card_name, card_data := p.1.card_data,
    text_content := p.1.text_content, distance := p.2,
    match_type := "vector_only" }

/-- The `vector_only` result built from one rule row and its distance
column, as in the `if not self.reranker` branch of `search_rules_text`. -/
def mkVectorOnlyRule (p : RuleRow × Option ℚ) : RResult :=
  { rule_number := p.1.rule_number, rule_text := p.1.rule_text,
    section_title := p.1.section_title, rule_data := p.1.rule_data,
    distance := p.2, match_type := "vector_only" }

/-- C8: when a vector-then-rerank strategy is constructed without a reranker
(`reranker is None`) and the query embedding succeeded, the strategy still
succeeds: both the card strategy and the rules strategy return the
vector-retrieved candidates with their distances, each result tagged
`vector_only`. -/
theorem strategies_vector_only_without_reranker
    (cardTable : List (CardRow × List ℚ)) (ruleTable : List (RuleRow × List ℚ))
    (cdist rdist : List ℚ → List ℚ → ℚ) (v w : List ℚ) (k1 k2 : ℕ)
    (resp1 resp2 : Option String) (q1 q2 : String) (fk1 fk2 : ℕ) :
    (searchByCardDescriptionFull cardTable cdist (some v) k1 false resp1 q1 fk1 =
      .ok ((vectorSelect cardTable cdist (some v) k1).map mkVectorOnlyCard)) ∧
    (∀ r ∈ (vectorSelect cardTable cdist (some v) k1).map mkVectorOnlyCard,
      r.match_type = "vector_only" ∧ r.distance.isSome = true) ∧
    (searchRulesTextFull ruleTable rdist (some w) k2 false resp2 q2 fk2 =
      .ok ((vectorSelect ruleTable rdist (some w) k2).map mkVectorOnlyRule)) ∧
    (∀ r ∈ (vectorSelect ruleTable rdist (some w) k2).map mkVectorOnlyRule,
      r.match_type = "vector_only" ∧ r.distance.isSome = true) := by
  refine ⟨?_, ?_, ?_, ?_⟩
  · by_cases hrow : vectorSelect cardTable cdist (some v) k1 = []
    · simp [searchByCardDescriptionFull, searchByCardDescription, hrow]
    · simp only [searchByCardDescriptionFull, searchByCardDescription,
        if_neg hrow, Bool.not_false, if_pos]
      refine pyListMap_ok_of_forall _ _ _ (fun a ha => ?_)
      obtain ⟨d, hd⟩ := vectorSelect_some_mem cardTable cdist v k1 ha
      simp [mkVectorOnlyCard, hd, pyFloat, Except.map]
  · intro r hr
    simp only [List.mem_map] at hr
    obtain ⟨p, hp, rfl⟩ := hr
    obtain ⟨d, hd⟩ := vectorSelect_some_mem cardTable cdist v k1 hp
    exact ⟨rfl, by simp [mkVectorOnlyCard, hd]⟩
  · by_cases hrow : vectorSelect ruleTable rdist (some w) k2 = []
    · simp [searchRulesTextFull, searchRulesText, hrow]
    · simp only [searchRulesTextFull, searchRulesText,
        if_neg hrow, Bool.not_false, if_pos]
      refine pyListMap_ok_of_forall _ _ _ (fun a ha => ?_)
      obtain ⟨d, hd⟩ := vectorSelect_some_mem ruleTable rdist w k2 ha
      simp [mkVectorOnlyRule, hd, pyFloat, Except.map]
  · intro r hr
    simp only [List.mem_map] at hr
    obtain ⟨p, hp, rfl⟩ := hr
    obtain ⟨d, hd⟩ := vectorSelect_some_mem ruleTable rdist w k2 hp
    exact ⟨rfl, by simp [mkVectorOnlyRule, hd]⟩

/-! ### Claim C9 -/

theorem mkExactResult_invariant (c : CardRow) :
    (mkExactResult c).signalCount = 1 ∧ (mkExactResult c).tagConsistent := by
  refine ⟨rfl, Or.inl rfl, fun _ => rfl, fun h => ?_, fun h => ?_⟩
  · rcases h with h | h <;> simp [mkExactResult] at h
  · simp [mkExactResult] at h

theorem mkTier2Result_invariant (sim : String → String → ℚ) (query : String)
    (c : CardRow) :
    (mkTier2Result sim query c).signalCount = 1 ∧
    (mkTier2Result sim query c).tagConsistent := by
  refine ⟨rfl, Or.inr (Or.inl rfl), fun _ => rfl, fun h => ?_, fun h => ?_⟩
  · rcases h with h | h <;> simp [mkTier2Result] at h
  · simp [mkTier2Result] at h

theorem mkTier3Result_invariant (sim : String → String → ℚ) (query : String)
    (c : CardRow) :
    (mkTier3Result sim query c).signalCount = 1 ∧
    (mkTier3Result sim query c).tagConsistent := by
  refine ⟨rfl, Or.inr (Or.inr (Or.inl rfl)), fun _ => rfl, fun h => ?_,
    fun h => ?_⟩
  · rcases h with h | h <;> simp [mkTier3Result] at h
  · simp [mkTier3Result] at h

theorem vectorOnlyCard_invariant (n : String) (cd : Option CardData)
    (tc : Option String) (d : ℚ) :
    ({ card_name := n, card_data := cd, text_content := tc,
       distance := some d, match_type := "vector_only" } : SResult).signalCount
      = 1 ∧
    ({ card_name := n, card_data := cd, text_content := tc,
       distance := some d,
       match_type := "vector_only" } : SResult).tagConsistent := by
  refine ⟨rfl, Or.inr (Or.inr (Or.inr (Or.inl rfl))), fun h => ?_,
    fun _ => rfl, fun h => ?_⟩
  · rcases h with h | h | h <;> simp at h
  · simp at h

theorem vectorAmbiguous_invariant (n : String) (cd : Option CardData)
    (tc : Option String) (d : ℚ) :
    ({ card_name := n, card_data := cd, text_content := tc,
       distance := some d,
       match_type := "vector_ambiguous" } : SResult).signalCount = 1 ∧
    ({ card_name := n, card_data := cd, text_content := tc,
       distance := some d,
       match_type := "vector_ambiguous" } : SResult).tagConsistent := by
  refine ⟨rfl, Or.inr (Or.inr (Or.inr (Or.inr (Or.inl rfl)))), fun h => ?_,
    fun _ => rfl, fun h => ?_⟩
  · rcases h with h | h | h <;> simp at h
  · simp at h

theorem vectorReranked_invariant (n : String) (cd : Option CardData)
    (tc : Option String) (sc : ℚ) :
    ({ card_name := n, card_data := cd, text_content := tc,
       score := some sc,
       match_type := "vector_reranked" } : SResult).signalCount = 1 ∧
    ({ card_name := n, card_data := cd, text_content := tc,
       score := some sc,
       match_type := "vector_reranked" } : SResult).tagConsistent := by
  refine ⟨rfl, Or.inr (Or.inr (Or.inr (Or.inr (Or.inr rfl)))), fun h => ?_,
    fun h => ?_, fun _ => rfl⟩
  · rcases h with h | h | h <;> simp at h
  · rcases h with h | h <;> simp at h

/-- C9: every result returned by the card search strategies — the lexical
name matcher, the vector-plus-rerank description search, and the pure-vector
ambiguous search — populates exactly one of the presentation signals
{similarity, distance, score}, and its `match_type` tag identifies which
one. -/
theorem result_signal_invariant :
    (∀ (table : List CardRow) (sim : String → String → ℚ) (query : String)
        (topK : ℕ) (threshold : ℚ),
      ∀ r ∈ searchByCardName table sim query topK threshold,
        r.signalCount = 1 ∧ r.tagConsistent) ∧
    (∀ (rows : List (CardRow × Option ℚ)) (hasReranker : Bool)
        (resp : Option String) (q : String) (fk : ℕ) (res : List SResult),
      searchByCardDescription rows hasReranker resp q fk = .ok res →
      ∀ r ∈ res, r.signalCount = 1 ∧ r.tagConsistent) ∧
    (∀ (rows : List (CardRow × Option ℚ)) (res : List SResult),
      searchAmbiguous rows = .ok res →
      ∀ r ∈ res, r.signalCount = 1 ∧ r.tagConsistent) := by
  refine ⟨?_, ?_, ?_⟩
  · intro table sim query topK threshold r hr
    simp only [searchByCardName] at hr
    split at hr
    · simp only [List.mem_singleton] at hr
      subst hr
      exact mkExactResult_invariant _
    · split at hr
      · split at hr
        · simp only [List.mem_map] at hr
          obtain ⟨c, _, rfl⟩ := hr
          exact mkTier2Result_invariant sim query c
        · simp only [List.mem_map] at hr
          obtain ⟨c, _, rfl⟩ := hr
          exact mkTier3Result_invariant sim query c
      · simp only [List.mem_map] at hr
        obtain ⟨c, _, rfl⟩ := hr
        exact mkTier3Result_invariant sim query c
  · intro rows hasReranker resp q fk res hres r hr
    simp only [searchByCardDescription] at hres
    split at hres
    · simp only [Except.ok.injEq] at hres
      subst hres
      simp at hr
    · split at hres
      · obtain ⟨a, _, hfa⟩ := pyListMap_mem_ok _ _ _ hres r hr
        cases ha : a.2 with
        | none =>
          rw [ha] at hfa
          exact absurd hfa (by simp [pyFloat, Except.map])
        | some d =>
          rw [ha] at hfa
          simp only [pyFloat, Except.map, Except.ok.injEq] at hfa
          subst hfa
          exact vectorOnlyCard_invariant _ _ _ _
      · simp only [Except.ok.injEq] at hres
        subst hres
        simp only [List.mem_map] at hr
        obtain ⟨item, _, rfl⟩ := hr
        exact vectorReranked_invariant _ _ _ _
  · intro rows res hres r hr
    obtain ⟨a, _, hfa⟩ := pyListMap_mem_ok _ _ _ hres r hr
    cases ha : a.2 with
    | none =>
      rw [ha] at hfa
      exact absurd hfa (by simp [pyFloat, Except.map])
    | some d =>
      rw [ha] at hfa
      simp only [pyFloat, Except.map, Except.ok.injEq] at hfa
      subst hfa
      exact vectorAmbiguous_invariant _ _ _ _

/-- Witness for C9: the single result of a concrete ambiguous vector search
carries exactly one populated signal, identified by its tag. -/
theorem result_signal_invariant_witness :
    ({ card_name := "a", distance := some 1,
       match_type := "vector_ambiguous" } : SResult).signalCount = 1 ∧
    ({ card_name := "a", distance := some 1,
       match_type := "vector_ambiguous" } : SResult).tagConsistent :=
  result_signal_invariant.2.2 [({ card_name := "a" }, some 1)]
    [{ card_name := "a", distance := some 1,
       match_type := "vector_ambiguous" }] rfl
    { card_name := "a", distance := some 1, match_type := "vector_ambiguous" }
    (List.mem_singleton.mpr rfl)

/-- Witness for C8 at a concrete one-row card table with a successful
embedding. -/
theorem strategies_vector_only_without_reranker_witness :
    searchByCardDescriptionFull [({ card_name := "Bolt" }, [1])]
      (fun _ _ => 0) (some [1]) 30 false none "q" 10 =
      .ok ((vectorSelect [({ card_name := "Bolt" }, [1])] (fun _ _ => 0)
        (some [1]) 30).map mkVectorOnlyCard) :=
  (strategies_vector_only_without_reranker [({ card_name := "Bolt" }, [1])]
    [] (fun _ _ => 0) (fun _ _ => 0) [1] [1] 30 30 none none "q" "q" 10 10).1
